import Mathlib

/-!
Verification of the fish-tank animation core (`src/main.rs`).

Modelling conventions:
* Machine integers become `Nat`/`Int`.  Screen and sprite sizes are `u32`
  in the source and are modelled as `Nat`; signed coordinates (`i32`) are
  modelled as `Int`.  The source's `cvt : u32 -> i32` is
  `try_into().unwrap()`, which panics for values `>= 2^31`; the model
  `cvt` below is the exact coercion, and theorems quantifying over sizes
  carry a `< 2^31` hypothesis so that they only speak about the domain
  where the model and the source agree.
* The animation phase is a `u8` in the source.  It is modelled as `Nat`:
  the wrap at `NUM_FRAMES * ANIMATION_SPEED` in `Fish.swim` makes the
  `Nat` model and the `u8` model agree at every input below `2^8`.
* Fallible operations (slice indexing, slicing with a bad range) return
  `Option`, `none` standing for the source's panic.
* The pseudo-random generator is the external `rand`/`rand_pcg`
  collaborator.  The source is generic over `T : Rng`; the model is
  likewise parametrised by a record `RngOps` of deterministic state
  transformers, one per method the source calls (`gen_range` on integer
  types, `gen::<bool>`, `gen_ratio`), plus seeding.  The documented
  contract of `gen_range` (the result lies in `[lo, hi)`) is an explicit
  hypothesis (`GenRangeSpec`) where a theorem needs it.
-/

/-- `NUM_FISH`: number of fish on the screen at once. -/
def NUM_FISH : Nat := 10

/-- `ANIMATION_SPEED`: divisor from animation phase to frame index. -/
def ANIMATION_SPEED : Nat := 2

/-- `BACKGROUND`: color of the water, RGB565 packed. -/
def BACKGROUND : Nat := 0x1f

/-- `FUDGE_FACTOR`: erasure margin around each fish. -/
def FUDGE_FACTOR : Int := 1

/-- `NUM_FRAMES`: animation frames per sprite, baked into the atlas. -/
def NUM_FRAMES : Nat := 3

/-- `NUM_SPRITES`: number of sprites in the atlas. -/
def NUM_SPRITES : Nat := 10

/-- `TRANSPARENT`: the reserved sentinel color word. -/
def TRANSPARENT : Nat := 0xdead

/-- `embedded_graphics::geometry::Size` (fields are `u32`). -/
structure Sz where
  width : Nat
  height : Nat
deriving DecidableEq, Repr

/-- `embedded_graphics::geometry::Point` (fields are `i32`). -/
structure Pt where
  x : Int
  y : Int
deriving DecidableEq, Repr

/-- `enum PointValue`; the third constructor is the source's visible-color
case (carrying an RGB565 word). -/
inductive PointValue where
  | OutOfRange : PointValue
  | Transparent : PointValue
  | Opaque : Nat → PointValue
deriving DecidableEq, Repr

/-- `enum Dir`. -/
inductive Dir where
  | Left : Dir
  | Right : Dir
deriving DecidableEq, Repr

/-- `struct Sprite`: a size and `NUM_FRAMES` frame slices.  The source's
fixed array `[&[u16]; NUM_FRAMES]` is modelled as a list of word lists;
`make_sprite` always builds exactly `NUM_FRAMES` of them, and indexing
with `List.get?` models the array access (which panics out of bounds). -/
structure Sprite where
  size : Sz
  frames : List (List Nat)
deriving DecidableEq, Repr

/-- `struct Fish`. -/
structure Fish where
  fish_type : Sprite
  upper_left : Pt
  size : Sz
  direction : Dir
  animation : Nat
deriving DecidableEq, Repr

/-- `struct FishTank`, parametrised by the RNG state type `σ`.  The
source's fixed array of `NUM_FISH` fish is modelled as a list (the
claims hold for any length; `FishTank.new` builds `NUM_FISH`). -/
structure FishTank (σ : Type) where
  fish : List Fish
  size : Sz
  rng : σ

/-- The RNG collaborator: one deterministic state transformer per `rand`
method the source calls.  `genRange` models `gen_range` at unsigned
types, `genRangeInt` at `i32`, `genBool` models `gen::<bool>`, `chance`
models `gen_ratio`, `init` models `Pcg32::new` from a seed. -/
structure RngOps (σ : Type) where
  genRange : Nat → Nat → σ → Nat × σ
  genRangeInt : Int → Int → σ → Int × σ
  genBool : σ → Bool × σ
  chance : Nat → Nat → σ → Bool × σ
  init : Nat → σ

/-- The documented contract of `rand`'s `gen_range(lo, hi)` at unsigned
types: for a nonempty range the result lies in `[lo, hi)`. -/
def GenRangeSpec {σ : Type} (ops : RngOps σ) : Prop :=
  ∀ lo hi s, lo < hi →
    lo ≤ (ops.genRange lo hi s).1 ∧ (ops.genRange lo hi s).1 < hi

/-- `fn cvt(u: u32) -> i32`: the source is `u.try_into().unwrap()`, which
agrees with the plain coercion for `u < 2^31` and panics above it. -/
def cvt (u : Nat) : Int := (u : Int)

/-- `Sprite::get_point`.  The two slice accesses (`self.frames[frame_no]`
and `frame[idx]`) panic when out of bounds; the model returns `none`
there. -/
def Sprite.get_point (sp : Sprite) (pt : Pt) (animation : Nat) :
    Option PointValue :=
  let x := pt.x - FUDGE_FACTOR
  let y := pt.y - FUDGE_FACTOR
  if x < 0 ∨ y < 0 ∨ x ≥ cvt sp.size.width ∨ y ≥ cvt sp.size.height then
    some .Transparent
  else
    let idx : Nat := x.toNat + y.toNat * sp.size.width
    match sp.frames.get? animation with
    | none => none
    | some frame =>
      match frame.get? idx with
      | none => none
      | some c =>
        if c = TRANSPARENT then some .Transparent else some (.Opaque c)

/-- `extract d o n`: the slice `&d[o .. o+n]` as a list. -/
def extract (d : List Nat) (o n : Nat) : List Nat :=
  (d.drop o).take n

/-- `Sprite::make_sprite`.  Atlas words are `u16`; reads reduce mod
`2^16`.  A frame slice `&sprite_data[a..b]` with `b = a + num_words`
computed in `u16` panics exactly when `a + num_words ≥ 2^16` (the wrapped
bound falls below `a` because `num_words < 2^16`) or when `b` exceeds the
data length; the model returns `none` in both cases. -/
def Sprite.make_sprite (sprite_num : Nat) (sprite_data : List Nat) :
    Option Sprite :=
  let header_index := 4 * sprite_num
  match sprite_data.get? header_index with
  | none => none
  | some w0 =>
    let width_height := w0 % 2 ^ 16
    let width := width_height >>> 8
    let height := width_height &&& 0xff
    let num_words := width * height
    let grab : Nat → Option (List Nat) := fun frame =>
      match sprite_data.get? (header_index + frame + 1) with
      | none => none
      | some off0 =>
        let off := off0 % 2 ^ 16
        if off + num_words < 2 ^ 16 ∧ off + num_words ≤ sprite_data.length
        then some (extract sprite_data off num_words)
        else none
    match grab 0, grab 1, grab 2 with
    | some f0, some f1, some f2 =>
      some { size := ⟨width, height⟩, frames := [f0, f1, f2] }
    | _, _, _ => none

/-- `Fish::get_point`.  The bounding-box test mirrors the source's
disjunction; inside the box the offset is mirrored horizontally for a
left-facing fish and handed to the sprite at frame
`animation / ANIMATION_SPEED`. -/
def Fish.get_point (f : Fish) (pt : Pt) : Option PointValue :=
  if pt.x < f.upper_left.x ∨ pt.y < f.upper_left.y ∨
      pt.x ≥ f.upper_left.x + cvt f.size.width ∨
      pt.y ≥ f.upper_left.y + cvt f.size.height then
    some .OutOfRange
  else
    let x0 := pt.x - f.upper_left.x
    let y := pt.y - f.upper_left.y
    let x := if f.direction = Dir.Left then cvt f.size.width - (x0 + 1) else x0
    f.fish_type.get_point ⟨x, y⟩ (f.animation / ANIMATION_SPEED)

/-- `Fish::on_screen`. -/
def Fish.on_screen (f : Fish) (screen : Sz) : Bool :=
  decide (f.upper_left.y ≤ cvt screen.height) &&
  decide (f.upper_left.y + cvt f.size.height ≥ 0) &&
  decide (f.upper_left.x ≤ cvt screen.width) &&
  decide (f.upper_left.x + cvt f.size.width ≥ 0)

/-- `Fish::randomize`.  The source draws, in order: the animation phase in
`[0, NUM_FRAMES * ANIMATION_SPEED)`, a direction bit (`Left` spawns at
`x = screen.width`, `Right` at `x = -size.width`), and
`y ∈ [0, screen.height - size.height)` (a `u32` subtraction; theorems
assume `size.height < screen.height`, where `Nat` subtraction agrees). -/
def Fish.randomize {σ : Type} (ops : RngOps σ) (f : Fish) (screen : Sz)
    (s : σ) : Fish × σ :=
  let p1 := ops.genRange 0 (NUM_FRAMES * ANIMATION_SPEED) s
  let f1 : Fish := { f with animation := p1.1 }
  let p2 := ops.genBool p1.2
  let f2 : Fish :=
    if p2.1 then
      { f1 with direction := .Left,
                upper_left := { f1.upper_left with x := cvt screen.width } }
    else
      { f1 with direction := .Right,
                upper_left := { f1.upper_left with
                                  x := -(cvt f1.size.width) } }
  let p3 := ops.genRange 0 (screen.height - f2.size.height) p2.2
  ({ f2 with upper_left := { f2.upper_left with y := cvt p3.1 } }, p3.2)

/-- `Fish::randomize_x`: a uniform on-screen x in
`[0, screen.width - size.width)` (again a `u32` subtraction). -/
def Fish.randomize_x {σ : Type} (ops : RngOps σ) (f : Fish) (screen : Sz)
    (s : σ) : Fish × σ :=
  let p := ops.genRange 0 (screen.width - f.size.width) s
  ({ f with upper_left := { f.upper_left with x := cvt p.1 } }, p.2)

/-- The movement and animation-advance half of `Fish::swim`, everything
before the `on_screen` check: with chance 3/4 step `x` by ±1 along the
facing direction, with chance 1/8 add `gen_range(-1, 2)` to `y`, then
advance the animation phase by 1, resetting to 0 at
`NUM_FRAMES * ANIMATION_SPEED`. -/
def Fish.swim_move {σ : Type} (ops : RngOps σ) (f : Fish) (s : σ) :
    Fish × σ :=
  let p1 := ops.chance 3 4 s
  let f1 : Fish :=
    if p1.1 then
      { f with upper_left := { f.upper_left with
          x := f.upper_left.x +
            (match f.direction with | .Left => -1 | .Right => 1) } }
    else f
  let step2 : Fish × σ :=
    let p2 := ops.chance 1 8 p1.2
    if p2.1 then
      let p3 := ops.genRangeInt (-1) 2 p2.2
      ({ f1 with upper_left := { f1.upper_left with
                                   y := f1.upper_left.y + p3.1 } }, p3.2)
    else (f1, p2.2)
  let f2 := step2.1
  let a := f2.animation + 1
  ({ f2 with
      animation := if a ≥ NUM_FRAMES * ANIMATION_SPEED then 0 else a },
   step2.2)

/-- `Fish::swim`: move and animate, then re-randomize when the fish left
the screen. -/
def Fish.swim {σ : Type} (ops : RngOps σ) (f : Fish) (screen : Sz)
    (s : σ) : Fish × σ :=
  let p := Fish.swim_move ops f s
  if p.1.on_screen screen then p else Fish.randomize ops p.1 screen p.2

/-- `Fish::new`: position `(0,0)`, bounding size = sprite size plus
`2 * FUDGE_FACTOR` on each axis, facing right, phase 0. -/
def Fish.new (sprite : Sprite) : Fish :=
  { fish_type := sprite,
    upper_left := ⟨0, 0⟩,
    size := ⟨sprite.size.width + 2, sprite.size.height + 2⟩,
    direction := .Right,
    animation := 0 }

/-- The construction loop of `FishTank::new`: for each index `i`, decode
sprite `i % NUM_SPRITES`, build the fish, `randomize`, `randomize_x`,
threading the single RNG state in index order.  `none` models the panic
of a failed atlas decode. -/
def tankNewGo {σ : Type} (ops : RngOps σ) (sprite_data : List Nat)
    (screen : Sz) : List Nat → σ → Option (List Fish × σ)
  | [], s => some ([], s)
  | i :: rest, s =>
    match Sprite.make_sprite (i % NUM_SPRITES) sprite_data with
    | none => none
    | some sp =>
      let p1 := Fish.randomize ops (Fish.new sp) screen s
      let p2 := Fish.randomize_x ops p1.1 screen p1.2
      match tankNewGo ops sprite_data screen rest p2.2 with
      | none => none
      | some pr => some (p2.1 :: pr.1, pr.2)

/-- `FishTank::new`.  The source seeds `Pcg32::new(seed, …)` (modelled by
`ops.init seed`), decodes a dummy sprite for array initialization (its
slot is overwritten before use; decoding sprite `0` happens again at
`i = 0`, so the failure condition is unchanged), then runs the loop. -/
def FishTank.new {σ : Type} (ops : RngOps σ) (sprite_data : List Nat)
    (screen : Sz) (seed : Nat) : Option (FishTank σ) :=
  match tankNewGo ops sprite_data screen (List.range NUM_FISH)
      (ops.init seed) with
  | none => none
  | some pr => some { fish := pr.1, size := screen, rng := pr.2 }

/-- The loop of `FishTank::swim`: every fish swims once, in index order,
threading the shared RNG state. -/
def tankSwimGo {σ : Type} (ops : RngOps σ) (screen : Sz) :
    List Fish → σ → List Fish × σ
  | [], s => ([], s)
  | f :: rest, s =>
    let p := Fish.swim ops f screen s
    let pr := tankSwimGo ops screen rest p.2
    (p.1 :: pr.1, pr.2)

/-- `FishTank::swim`. -/
def FishTank.swim {σ : Type} (ops : RngOps σ) (t : FishTank σ) :
    FishTank σ :=
  let pr := tankSwimGo ops t.size t.fish t.rng
  { t with fish := pr.1, rng := pr.2 }

/-- The loop of `FishTank::get_point`: fish in index order; `Opaque`
returns immediately, `Transparent` updates the running result,
`OutOfRange` leaves it; `ret` starts as `OutOfRange`. -/
def tankGetGo (pt : Pt) : List Fish → PointValue → Option PointValue
  | [], ret => some ret
  | f :: rest, ret =>
    match f.get_point pt with
    | none => none
    | some (.Opaque c) => some (.Opaque c)
    | some .Transparent => tankGetGo pt rest .Transparent
    | some .OutOfRange => tankGetGo pt rest ret

/-- `FishTank::get_point`. -/
def FishTank.get_point {σ : Type} (t : FishTank σ) (pt : Pt) :
    Option PointValue :=
  tankGetGo pt t.fish .OutOfRange

/-- The color a `PointValue` is rendered with by `TankIterator::next`:
`OutOfRange` emits nothing, `Transparent` the background, `Opaque c` the
color `c`. -/
def renderColor : PointValue → Option Nat
  | .OutOfRange => none
  | .Transparent => some BACKGROUND
  | .Opaque c => some c

/-- `TankIterator` consumed to exhaustion from cursor `(x, y)`: the source
loop samples the tank at the cursor, advances it (`x + 1`, wrapping to the
next row when `x + 1 ≥ width`), emits a pixel unless the sample was
`OutOfRange`, and stops when `y ≥ height`.  The cursor starts at `(0,0)`
and stays nonnegative, so it is modelled with `Nat` coordinates.  `none`
models a panic inside `FishTank::get_point`. -/
def collect {σ : Type} (t : FishTank σ) (x y : Nat) :
    Option (List (Pt × Nat)) :=
  if _h : t.size.height ≤ y then some []
  else
    let pv := t.get_point ⟨(x : Int), (y : Int)⟩
    let nx := if t.size.width ≤ x + 1 then (0, y + 1) else (x + 1, y)
    match pv with
    | none => none
    | some v =>
      match renderColor v with
      | none => collect t nx.1 nx.2
      | some c =>
        (collect t nx.1 nx.2).map
          (fun rest => (⟨(x : Int), (y : Int)⟩, c) :: rest)
termination_by (t.size.height - y, t.size.width - x)
decreasing_by
  all_goals
    simp only [Prod.lex_iff]
    by_cases hx : t.size.width ≤ x + 1 <;> simp [hx] <;> omega

/-- One full `PixelStream` pass: `TankIterator::new` places the cursor at
`(0, 0)`. -/
def TankIterator.emitted {σ : Type} (t : FishTank σ) :
    Option (List (Pt × Nat)) :=
  collect t 0 0

/-- Whether a fish's bounding box contains a point: the negation of the
`OutOfRange` test at the head of `Fish::get_point`. -/
def Fish.inBox (f : Fish) (pt : Pt) : Bool :=
  decide (¬ (pt.x < f.upper_left.x ∨ pt.y < f.upper_left.y ∨
             pt.x ≥ f.upper_left.x + cvt f.size.width ∨
             pt.y ≥ f.upper_left.y + cvt f.size.height))

/-- Well-formedness of a fish: the frame index it renders is a valid
index into its sprite's frame list, and every frame has exactly
`width * height` words.  Every fish the program builds satisfies this
(frames come from `make_sprite`, the phase from the invariant of
`swim`/`randomize`); it is exactly what makes `Fish.get_point` total. -/
def Fish.wf (f : Fish) : Prop :=
  f.animation / ANIMATION_SPEED < f.fish_type.frames.length ∧
  ∀ fr ∈ f.fish_type.frames,
    fr.length = f.fish_type.size.width * f.fish_type.size.height

instance (f : Fish) : Decidable f.wf := by
  unfold Fish.wf; infer_instance

/-- The color of the first (lowest-index) fish that is opaque at `pt`,
if any. -/
def opaqueColorAt (f : Fish) (pt : Pt) : Option Nat :=
  match f.get_point pt with
  | some (.Opaque c) => some c
  | _ => none

/-- The specification's description of `FishTank.sample` (§4.4), written
from the spec's words for comparison with the implementation: the first
fish in index order that is opaque at the point wins; otherwise
`Transparent` when some fish's bounding box contains the point, else
`OutOfRange`. -/
def spec_sample (fish : List Fish) (pt : Pt) : PointValue :=
  match fish.findSome? (fun f => opaqueColorAt f pt) with
  | some c => .Opaque c
  | none =>
    if fish.any (fun f => f.inBox pt) then .Transparent else .OutOfRange

/-- One tick of the animation phase, as `Fish::swim` performs it:
advance by 1, resetting to 0 on reaching `NUM_FRAMES * ANIMATION_SPEED`. -/
def phaseStep (a : Nat) : Nat :=
  if a + 1 ≥ NUM_FRAMES * ANIMATION_SPEED then 0 else a + 1

/-- `k` consecutive `Fish::swim` ticks of a single fish, threading the
RNG state. -/
def swimTrace {σ : Type} (ops : RngOps σ) (screen : Sz) (f : Fish)
    (s : σ) : Nat → Fish × σ
  | 0 => (f, s)
  | k + 1 =>
    let p := swimTrace ops screen f s k
    Fish.swim ops p.1 screen p.2

/-- One full run: `FishTank::new` with the given screen size and seed,
then `swim()` called `k` times. -/
def runA {σ : Type} (ops : RngOps σ) (sprite_data : List Nat)
    (screen : Sz) (seed k : Nat) : Option (FishTank σ) :=
  (FishTank.new ops sprite_data screen seed).map
    (fun t => (FishTank.swim ops)^[k] t)

/-- A literal second copy of `runA`: a second, independent run of the
same program.  Comparing the two runs states the determinism contract. -/
def runB {σ : Type} (ops : RngOps σ) (sprite_data : List Nat)
    (screen : Sz) (seed k : Nat) : Option (FishTank σ) :=
  (FishTank.new ops sprite_data screen seed).map
    (fun t => (FishTank.swim ops)^[k] t)

/-- The start offset of sprite `i`'s frame `j`, read from an atlas the
way `make_sprite` reads it (header word `4*i + j + 1`, as `u16`). -/
def atlasFrameStart (data : List Nat) (i j : Nat) : Nat :=
  (data.get? (4 * i + j + 1)).getD 0 % 2 ^ 16

/-- The frame length (`width * height`) of sprite `i`, read from an
atlas the way `make_sprite` computes it from header word `4*i`. -/
def atlasFrameLen (data : List Nat) (i : Nat) : Nat :=
  let wh := (data.get? (4 * i)).getD 0 % 2 ^ 16
  (wh >>> 8) * (wh &&& 0xff)

/-- Modelled from the spec: the compiled-in atlas `fish.raw` is a build
resource that is not under `src/`, so its contents are modelled from the
spec's format description (§4.1, §6): `NUM_SPRITES` headers occupy words
`[0, 4*NUM_SPRITES)`, word `4*i` packs `(width << 8) | height`, words
`4*i+1 .. 4*i+3` hold the three frame offsets, and the frames are laid
out consecutively after the headers without overlap.  The spec does not
fix the sprite dimensions, so each sprite is modelled at 1×1. -/
def modelAtlas : List Nat :=
  (List.range NUM_SPRITES).flatMap
    (fun i => [(1 <<< 8) ||| 1,
               4 * NUM_SPRITES + 3 * i,
               4 * NUM_SPRITES + 3 * i + 1,
               4 * NUM_SPRITES + 3 * i + 2]) ++
  List.replicate (3 * NUM_SPRITES) 0x07e0

/-- Row-major "not before the cursor" order: the positions a pass whose
cursor stands at `(x, y)` has yet to visit. -/
def afterPos (x y : Nat) (p : Pt) : Prop :=
  (y : Int) < p.y ∨ ((y : Int) = p.y ∧ (x : Int) ≤ p.x)

instance (x y : Nat) (p : Pt) : Decidable (afterPos x y p) := by
  unfold afterPos; infer_instance

/-- A point lies on the screen raster. -/
def inScreen (screen : Sz) (p : Pt) : Prop :=
  0 ≤ p.x ∧ p.x < cvt screen.width ∧ 0 ≤ p.y ∧ p.y < cvt screen.height

instance (screen : Sz) (p : Pt) : Decidable (inScreen screen p) := by
  unfold inScreen; infer_instance

/-- A concrete deterministic RNG for instantiating theorems: `gen_range`
returns the lower bound, the boolean draws return `true`. -/
def testOps : RngOps Unit :=
  { genRange := fun lo _ s => (lo, s),
    genRangeInt := fun lo _ s => (lo, s),
    genBool := fun s => (true, s),
    chance := fun _ _ s => (true, s),
    init := fun _ => () }

/-- A concrete 1×1 sprite with color `5` in all three frames. -/
def spriteA : Sprite := { size := ⟨1, 1⟩, frames := [[5], [5], [5]] }

/-- A concrete fish over `spriteA` at the origin. -/
def fishA : Fish :=
  { fish_type := spriteA, upper_left := ⟨0, 0⟩, size := ⟨3, 3⟩,
    direction := .Right, animation := 0 }

/-- A second fish at the same position whose sprite color is `7`. -/
def fishB : Fish :=
  { fishA with fish_type := { spriteA with frames := [[7], [7], [7]] } }

/-- A left-facing copy of `fishA`. -/
def fishL : Fish := { fishA with direction := .Left }

/-- A fish in the middle of the screen (stays on-screen for many
ticks). -/
def fishM : Fish := { fishA with upper_left := ⟨50, 50⟩ }

/-- A fish whose box touches the screen's left edge (`x + width = 0`)
but lies far below the screen vertically. -/
def fishOffY : Fish := { fishA with upper_left := ⟨-3, 1000⟩ }

/-- A fish far to the right of the screen (off-screen). -/
def fishOffX : Fish := { fishA with upper_left := ⟨1000, 10⟩ }

/-- The 160×80 screen of the target display. -/
def screenT : Sz := ⟨160, 80⟩

/-- A concrete two-fish tank: `fishA` and `fishB` overlap everywhere,
both opaque with different colors. -/
def tankT : FishTank Unit :=
  { fish := [fishA, fishB], size := screenT, rng := () }

/-- The fish states reachable through the operations the program uses:
`Fish::new`, `Fish::randomize`, `Fish::randomize_x` and `Fish::swim`
(each with arbitrary RNG state). -/
inductive FishReach {σ : Type} (ops : RngOps σ) (screen : Sz) :
    Fish → Prop where
  | base (sp : Sprite) : FishReach ops screen (Fish.new sp)
  | rand (f : Fish) (s : σ) : FishReach ops screen f →
      FishReach ops screen (Fish.randomize ops f screen s).1
  | randx (f : Fish) (s : σ) : FishReach ops screen f →
      FishReach ops screen (Fish.randomize_x ops f screen s).1
  | swim (f : Fish) (s : σ) : FishReach ops screen f →
      FishReach ops screen (Fish.swim ops f screen s).1

lemma testOps_genRange_spec : GenRangeSpec testOps :=
  fun lo _ _ h => ⟨Nat.le_refl lo, h⟩

lemma inBox_false_iff (f : Fish) (pt : Pt) :
    f.inBox pt = false ↔
      (pt.x < f.upper_left.x ∨ pt.y < f.upper_left.y ∨
       pt.x ≥ f.upper_left.x + cvt f.size.width ∨
       pt.y ≥ f.upper_left.y + cvt f.size.height) := by
  simp only [Fish.inBox, decide_eq_false_iff_not, not_not]

lemma inBox_iff (f : Fish) (pt : Pt) :
    f.inBox pt = true ↔
      f.upper_left.x ≤ pt.x ∧ f.upper_left.y ≤ pt.y ∧
      pt.x < f.upper_left.x + cvt f.size.width ∧
      pt.y < f.upper_left.y + cvt f.size.height := by
  simp only [Fish.inBox, decide_eq_true_eq, not_or]
  omega

lemma get_point_of_not_inBox (f : Fish) (pt : Pt)
    (h : f.inBox pt = false) : f.get_point pt = some .OutOfRange := by
  rw [inBox_false_iff] at h
  rw [Fish.get_point, if_pos h]

lemma get_point_of_inBox (f : Fish) (pt : Pt) (h : f.inBox pt = true) :
    f.get_point pt =
      f.fish_type.get_point
        ⟨if f.direction = Dir.Left then
            cvt f.size.width - (pt.x - f.upper_left.x + 1)
          else pt.x - f.upper_left.x,
         pt.y - f.upper_left.y⟩
        (f.animation / ANIMATION_SPEED) := by
  rw [inBox_iff] at h
  rw [Fish.get_point, if_neg (by omega)]

lemma sprite_get_point_ne_oor (sp : Sprite) (pt : Pt) (a : Nat) :
    sp.get_point pt a ≠ some .OutOfRange := by
  simp only [Sprite.get_point]
  split
  · simp
  · split
    · simp
    · split
      · simp
      · split <;> simp

lemma sprite_get_point_isSome (sp : Sprite) (pt : Pt) (a : Nat)
    (ha : a < sp.frames.length)
    (hfr : ∀ fr ∈ sp.frames,
      fr.length = sp.size.width * sp.size.height) :
    (sp.get_point pt a).isSome := by
  simp only [Sprite.get_point]
  split
  · rfl
  · rename_i hin
    simp only [cvt, FUDGE_FACTOR, not_or, not_lt, not_le] at hin
    obtain ⟨h1, h2, h3, h4⟩ := hin
    obtain ⟨fr, hget⟩ : ∃ fr, sp.frames.get? a = some fr :=
      ⟨_, List.get?_eq_get ha⟩
    have hlen : fr.length = sp.size.width * sp.size.height :=
      hfr fr (List.get?_mem hget)
    have hx : (pt.x - FUDGE_FACTOR).toNat < sp.size.width := by
      simp only [FUDGE_FACTOR]; omega
    have hy : (pt.y - FUDGE_FACTOR).toNat < sp.size.height := by
      simp only [FUDGE_FACTOR]; omega
    have hidx : (pt.x - FUDGE_FACTOR).toNat +
        (pt.y - FUDGE_FACTOR).toNat * sp.size.width < fr.length := by
      rw [hlen]
      have step1 : (pt.x - FUDGE_FACTOR).toNat +
          (pt.y - FUDGE_FACTOR).toNat * sp.size.width <
          ((pt.y - FUDGE_FACTOR).toNat + 1) * sp.size.width := by
        rw [add_one_mul]
        omega
      have step2 : ((pt.y - FUDGE_FACTOR).toNat + 1) * sp.size.width ≤
          sp.size.height * sp.size.width :=
        Nat.mul_le_mul_right _ (by omega)
      calc (pt.x - FUDGE_FACTOR).toNat +
            (pt.y - FUDGE_FACTOR).toNat * sp.size.width
          < ((pt.y - FUDGE_FACTOR).toNat + 1) * sp.size.width := step1
        _ ≤ sp.size.height * sp.size.width := step2
        _ = sp.size.width * sp.size.height := Nat.mul_comm _ _
    obtain ⟨c, hc⟩ : ∃ c, fr.get? ((pt.x - FUDGE_FACTOR).toNat +
        (pt.y - FUDGE_FACTOR).toNat * sp.size.width) = some c :=
      ⟨_, List.get?_eq_get hidx⟩
    simp only [hget, hc]
    split <;> rfl

lemma wf_get_point_isSome (f : Fish) (pt : Pt) (h : f.wf) :
    (f.get_point pt).isSome := by
  cases hb : f.inBox pt
  · rw [get_point_of_not_inBox f pt hb]; rfl
  · rw [get_point_of_inBox f pt hb]
    exact sprite_get_point_isSome _ _ _ h.1 h.2

lemma get_point_oor_iff (f : Fish) (pt : Pt) :
    f.get_point pt = some .OutOfRange ↔ f.inBox pt = false := by
  constructor
  · intro h
    by_contra hb
    have hib : f.inBox pt = true := by
      cases hx : f.inBox pt
      · exact absurd hx hb
      · rfl
    rw [get_point_of_inBox f pt hib] at h
    exact sprite_get_point_ne_oor _ _ _ h
  · exact get_point_of_not_inBox f pt

lemma tankGetGo_eq (pt : Pt) :
    ∀ (fish : List Fish) (ret : PointValue),
      (∀ f ∈ fish, (f.get_point pt).isSome) →
      tankGetGo pt fish ret = some
        (match fish.findSome? (fun f => opaqueColorAt f pt) with
         | some c => .Opaque c
         | none =>
           if fish.any (fun f => f.inBox pt) then .Transparent else ret)
  | [], _, _ => rfl
  | f :: rest, ret, h => by
    have hf : (f.get_point pt).isSome := h f (by simp)
    have hrest : ∀ g ∈ rest, (g.get_point pt).isSome := fun g hg =>
      h g (List.mem_cons_of_mem _ hg)
    rw [List.findSome?_cons, List.any_cons]
    cases hfp : f.get_point pt with
    | none => rw [hfp] at hf; exact absurd hf (by simp)
    | some v =>
      cases v with
      | Opaque c =>
        have hoc : opaqueColorAt f pt = some c := by
          simp [opaqueColorAt, hfp]
        simp only [tankGetGo, hfp, hoc]
      | Transparent =>
        have hoc : opaqueColorAt f pt = none := by
          simp [opaqueColorAt, hfp]
        have hbox : f.inBox pt = true := by
          cases hx : f.inBox pt
          · rw [← get_point_oor_iff] at hx
            rw [hfp] at hx
            exact absurd hx (by simp)
          · rfl
        simp only [tankGetGo, hfp, hoc, hbox, Bool.true_or,
          tankGetGo_eq pt rest .Transparent hrest]
        cases rest.findSome? (fun f => opaqueColorAt f pt) <;> simp
      | OutOfRange =>
        have hoc : opaqueColorAt f pt = none := by
          simp [opaqueColorAt, hfp]
        have hbox : f.inBox pt = false := (get_point_oor_iff f pt).mp hfp
        simp only [tankGetGo, hfp, hoc, hbox, Bool.false_or,
          tankGetGo_eq pt rest ret hrest]

/-- `FishTank::get_point` refines the spec's `sample` description on a
well-formed fish list. -/
lemma tank_get_point_eq {σ : Type} (t : FishTank σ) (pt : Pt)
    (h : ∀ f ∈ t.fish, (f.get_point pt).isSome) :
    t.get_point pt = some (spec_sample t.fish pt) := by
  rw [FishTank.get_point, tankGetGo_eq pt t.fish .OutOfRange h,
    spec_sample]

lemma spec_sample_oor_iff (fish : List Fish) (pt : Pt) :
    spec_sample fish pt = .OutOfRange ↔
      ∀ f ∈ fish, f.inBox pt = false := by
  rw [spec_sample]
  constructor
  · intro h f hf
    cases hfind : fish.findSome? (fun f => opaqueColorAt f pt) with
    | some c => rw [hfind] at h; exact absurd h (by simp)
    | none =>
      rw [hfind] at h
      cases hany : fish.any (fun f => f.inBox pt) with
      | true => rw [hany] at h; exact absurd h (by simp)
      | false =>
        have := List.any_eq_false.mp hany f hf
        cases hx : f.inBox pt
        · rfl
        · exact absurd hx this
  · intro h
    have hoc : ∀ f ∈ fish, opaqueColorAt f pt = none := by
      intro f hf
      rw [opaqueColorAt, get_point_of_not_inBox f pt (h f hf)]
    have hfind : fish.findSome? (fun f => opaqueColorAt f pt) = none := by
      rw [List.findSome?_eq_none_iff]
      exact hoc
    have hany : fish.any (fun f => f.inBox pt) = false := by
      rw [List.any_eq_false]
      intro f hf
      rw [h f hf]
      simp
    rw [hfind, hany]
    simp

lemma randomize_animation {σ : Type} (ops : RngOps σ) (f : Fish)
    (screen : Sz) (s : σ) :
    (Fish.randomize ops f screen s).1.animation =
      (ops.genRange 0 (NUM_FRAMES * ANIMATION_SPEED) s).1 := by
  simp only [Fish.randomize]
  split <;> rfl

lemma randomize_size {σ : Type} (ops : RngOps σ) (f : Fish)
    (screen : Sz) (s : σ) :
    (Fish.randomize ops f screen s).1.size = f.size := by
  simp only [Fish.randomize]
  split <;> rfl

lemma randomize_x_animation {σ : Type} (ops : RngOps σ) (f : Fish)
    (screen : Sz) (s : σ) :
    (Fish.randomize_x ops f screen s).1.animation = f.animation := rfl

lemma swim_move_animation {σ : Type} (ops : RngOps σ) (f : Fish)
    (s : σ) :
    (Fish.swim_move ops f s).1.animation = phaseStep f.animation := by
  simp only [Fish.swim_move, phaseStep]
  split <;> split <;> rfl

lemma swim_move_size {σ : Type} (ops : RngOps σ) (f : Fish) (s : σ) :
    (Fish.swim_move ops f s).1.size = f.size := by
  simp only [Fish.swim_move]
  split <;> split <;> rfl

lemma phaseStep_lt (a : Nat) :
    phaseStep a < NUM_FRAMES * ANIMATION_SPEED := by
  rw [phaseStep]
  split
  · decide
  · omega

lemma swim_animation_lt {σ : Type} (ops : RngOps σ) (f : Fish)
    (screen : Sz) (s : σ) (hspec : GenRangeSpec ops) :
    (Fish.swim ops f screen s).1.animation <
      NUM_FRAMES * ANIMATION_SPEED := by
  rw [Fish.swim]
  split
  · rw [swim_move_animation]
    exact phaseStep_lt _
  · rw [randomize_animation]
    exact (hspec 0 (NUM_FRAMES * ANIMATION_SPEED) _ (by decide)).2

lemma randomize_dir_x {σ : Type} (ops : RngOps σ) (g : Fish)
    (screen : Sz) (s : σ) :
    ((Fish.randomize ops g screen s).1.direction = .Left ∧
     (Fish.randomize ops g screen s).1.upper_left.x = cvt screen.width) ∨
    ((Fish.randomize ops g screen s).1.direction = .Right ∧
     (Fish.randomize ops g screen s).1.upper_left.x =
       -(cvt g.size.width)) := by
  simp only [Fish.randomize]
  cases hb : (ops.genBool
      (ops.genRange 0 (NUM_FRAMES * ANIMATION_SPEED) s).2).1 <;>
    simp only [hb, if_true, if_false, Bool.false_eq_true]
  · right; constructor <;> trivial
  · left; constructor <;> trivial

lemma randomize_y {σ : Type} (ops : RngOps σ) (g : Fish) (screen : Sz)
    (s : σ) :
    (Fish.randomize ops g screen s).1.upper_left.y =
      cvt (ops.genRange 0 (screen.height - g.size.height)
        (ops.genBool
          (ops.genRange 0 (NUM_FRAMES * ANIMATION_SPEED) s).2).2).1 := by
  simp only [Fish.randomize]
  cases hb : (ops.genBool
      (ops.genRange 0 (NUM_FRAMES * ANIMATION_SPEED) s).2).1 <;>
    simp only [hb, if_true, if_false, Bool.false_eq_true]

lemma randomize_spec {σ : Type} (ops : RngOps σ) (g : Fish)
    (screen : Sz) (s : σ) (hspec : GenRangeSpec ops)
    (hh : g.size.height < screen.height) :
    (Fish.randomize ops g screen s).1.size = g.size ∧
    (Fish.randomize ops g screen s).1.animation <
      NUM_FRAMES * ANIMATION_SPEED ∧
    ((Fish.randomize ops g screen s).1.direction = .Left →
      (Fish.randomize ops g screen s).1.upper_left.x =
        cvt screen.width) ∧
    ((Fish.randomize ops g screen s).1.direction = .Right →
      (Fish.randomize ops g screen s).1.upper_left.x =
        -(cvt g.size.width)) ∧
    0 ≤ (Fish.randomize ops g screen s).1.upper_left.y ∧
    (Fish.randomize ops g screen s).1.upper_left.y <
      cvt (screen.height - g.size.height) ∧
    (Fish.randomize ops g screen s).1.on_screen screen = true := by
  have ha := hspec 0 (NUM_FRAMES * ANIMATION_SPEED) s (by decide)
  have hy := hspec 0 (screen.height - g.size.height)
    (ops.genBool (ops.genRange 0 (NUM_FRAMES * ANIMATION_SPEED) s).2).2
    (by omega)
  have hyv := randomize_y ops g screen s
  have hdx := randomize_dir_x ops g screen s
  have hy0 : 0 ≤ (Fish.randomize ops g screen s).1.upper_left.y := by
    rw [hyv]; simp only [cvt]; omega
  have hylt : (Fish.randomize ops g screen s).1.upper_left.y <
      cvt (screen.height - g.size.height) := by
    rw [hyv]; simp only [cvt]; omega
  have hsz := randomize_size ops g screen s
  have hos : (Fish.randomize ops g screen s).1.on_screen screen
      = true := by
    simp only [Fish.on_screen, Bool.and_eq_true, decide_eq_true_eq, hsz]
    rcases hdx with ⟨_, hx⟩ | ⟨_, hx⟩ <;>
      rw [hx] <;> simp only [cvt] at hy0 hylt ⊢ <;>
      refine ⟨⟨⟨by omega, by omega⟩, by omega⟩, by omega⟩
  refine ⟨randomize_size ops g screen s, ?_, ?_, ?_, hy0, hylt, hos⟩
  · rw [randomize_animation]; exact ha.2
  · intro hL
    rcases hdx with ⟨_, hx⟩ | ⟨hd, _⟩
    · exact hx
    · rw [hL] at hd; exact Dir.noConfusion hd
  · intro hR
    rcases hdx with ⟨hd, _⟩ | ⟨_, hx⟩
    · rw [hR] at hd; exact Dir.noConfusion hd
    · exact hx

/-- C4: when the moved-and-animated fish is off-screen, `Fish::swim`
immediately re-randomizes it, and the re-randomized state obeys the
spawn rule: `Left` implies `x = screen.width`, `Right` implies
`x = -bounding_width`, `y ∈ [0, screen.height - bounding_height)`, the
phase lies in `[0, NUM_FRAMES * ANIMATION_SPEED)`, and the result is
on-screen. -/
theorem c4_offscreen_respawn {σ : Type} (ops : RngOps σ) (f : Fish)
    (screen : Sz) (s : σ) (hspec : GenRangeSpec ops)
    (hh : f.size.height < screen.height)
    (hW : screen.width < 2 ^ 31) (hH : screen.height < 2 ^ 31)
    (hw31 : f.size.width < 2 ^ 31)
    (hoff : (Fish.swim_move ops f s).1.on_screen screen = false) :
    Fish.swim ops f screen s =
      Fish.randomize ops (Fish.swim_move ops f s).1 screen
        (Fish.swim_move ops f s).2 ∧
    ((Fish.swim ops f screen s).1.direction = .Left →
      (Fish.swim ops f screen s).1.upper_left.x = cvt screen.width) ∧
    ((Fish.swim ops f screen s).1.direction = .Right →
      (Fish.swim ops f screen s).1.upper_left.x =
        -(cvt (Fish.swim ops f screen s).1.size.width)) ∧
    0 ≤ (Fish.swim ops f screen s).1.upper_left.y ∧
    (Fish.swim ops f screen s).1.upper_left.y <
      cvt (screen.height - (Fish.swim ops f screen s).1.size.height) ∧
    (Fish.swim ops f screen s).1.animation <
      NUM_FRAMES * ANIMATION_SPEED ∧
    (Fish.swim ops f screen s).1.on_screen screen = true := by
  have hse : Fish.swim ops f screen s =
      Fish.randomize ops (Fish.swim_move ops f s).1 screen
        (Fish.swim_move ops f s).2 := by
    rw [Fish.swim]
    rw [if_neg (by rw [hoff]; exact Bool.false_ne_true)]
  have hmsz := swim_move_size ops f s
  have hh' : (Fish.swim_move ops f s).1.size.height < screen.height := by
    rw [hmsz]; exact hh
  obtain ⟨hsz, hanim, hL, hR, hy0, hylt, hos⟩ :=
    randomize_spec ops (Fish.swim_move ops f s).1 screen
      (Fish.swim_move ops f s).2 hspec hh'
  rw [hse]
  refine ⟨rfl, hL, ?_, hy0, ?_, hanim, hos⟩
  · intro hRdir
    rw [hsz]
    exact hR hRdir
  · rw [hsz]
    exact hylt

/-- Witness for C4 at the concrete off-screen fish `fishOffX` under
`testOps`. -/
theorem c4_witness :
    Fish.swim testOps fishOffX screenT () =
      Fish.randomize testOps (Fish.swim_move testOps fishOffX ()).1
        screenT (Fish.swim_move testOps fishOffX ()).2 ∧
    ((Fish.swim testOps fishOffX screenT ()).1.direction = .Left →
      (Fish.swim testOps fishOffX screenT ()).1.upper_left.x =
        cvt screenT.width) ∧
    ((Fish.swim testOps fishOffX screenT ()).1.direction = .Right →
      (Fish.swim testOps fishOffX screenT ()).1.upper_left.x =
        -(cvt (Fish.swim testOps fishOffX screenT ()).1.size.width)) ∧
    0 ≤ (Fish.swim testOps fishOffX screenT ()).1.upper_left.y ∧
    (Fish.swim testOps fishOffX screenT ()).1.upper_left.y <
      cvt (screenT.height -
        (Fish.swim testOps fishOffX screenT ()).1.size.height) ∧
    (Fish.swim testOps fishOffX screenT ()).1.animation <
      NUM_FRAMES * ANIMATION_SPEED ∧
    (Fish.swim testOps fishOffX screenT ()).1.on_screen screenT = true :=
  c4_offscreen_respawn testOps fishOffX screenT () testOps_genRange_spec
    (by decide) (by decide) (by decide) (by decide) (by decide)

lemma swimTrace_animation {σ : Type} (ops : RngOps σ) (screen : Sz)
    (f : Fish) (s : σ) :
    ∀ k, (∀ j, j < k →
      (Fish.swim_move ops (swimTrace ops screen f s j).1
        (swimTrace ops screen f s j).2).1.on_screen screen = true) →
    (swimTrace ops screen f s k).1.animation = phaseStep^[k] f.animation
  | 0, _ => rfl
  | k + 1, h => by
    have ih := swimTrace_animation ops screen f s k
      (fun j hj => h j (Nat.lt_succ_of_lt hj))
    have hk := h k (Nat.lt_succ_self k)
    show (Fish.swim ops (swimTrace ops screen f s k).1 screen
      (swimTrace ops screen f s k).2).1.animation = _
    simp only [Fish.swim, hk, if_true]
    rw [swim_move_animation, ih, Function.iterate_succ_apply']

/-- C7: every swim tick advances the animation phase by exactly 1,
wrapping to 0 at `NUM_FRAMES * ANIMATION_SPEED` (equivalently,
`(a + 1) % (NUM_FRAMES * ANIMATION_SPEED)` below the wrap bound); the
rendered frame index inside the bounding box is
`animation / ANIMATION_SPEED`; and from phase 0, after exactly
`NUM_FRAMES * ANIMATION_SPEED` consecutive swim ticks that never leave
the screen, the phase is 0 again. -/
theorem c7_animation_phase :
    (∀ (σ : Type) (ops : RngOps σ) (f : Fish) (screen : Sz) (s : σ),
      (Fish.swim_move ops f s).1.on_screen screen = true →
      (Fish.swim ops f screen s).1.animation = phaseStep f.animation) ∧
    (∀ a, a < NUM_FRAMES * ANIMATION_SPEED →
      phaseStep a = (a + 1) % (NUM_FRAMES * ANIMATION_SPEED)) ∧
    (∀ (f : Fish) (pt : Pt), f.inBox pt = true →
      ∃ q, f.get_point pt =
        f.fish_type.get_point q (f.animation / ANIMATION_SPEED)) ∧
    (∀ (σ : Type) (ops : RngOps σ) (screen : Sz) (f : Fish) (s : σ),
      f.animation = 0 →
      (∀ j, j < NUM_FRAMES * ANIMATION_SPEED →
        (Fish.swim_move ops (swimTrace ops screen f s j).1
          (swimTrace ops screen f s j).2).1.on_screen screen = true) →
      (swimTrace ops screen f s
        (NUM_FRAMES * ANIMATION_SPEED)).1.animation = 0) := by
  refine ⟨?_, ?_, ?_, ?_⟩
  · intro σ ops f screen s hon
    simp only [Fish.swim, hon, if_true]
    exact swim_move_animation ops f s
  · intro a ha
    rw [phaseStep]
    simp only [NUM_FRAMES, ANIMATION_SPEED] at ha ⊢
    split <;> omega
  · intro f pt h
    exact ⟨_, get_point_of_inBox f pt h⟩
  · intro σ ops screen f s ha hon
    rw [swimTrace_animation ops screen f s _ hon, ha]
    decide

/-- Witness for C7: concrete instances of all four parts (`fishA` for a
single tick and the frame index, `fishM` for the six-tick wrap). -/
theorem c7_witness :
    (Fish.swim testOps fishA screenT ()).1.animation =
      phaseStep fishA.animation ∧
    phaseStep 0 = (0 + 1) % (NUM_FRAMES * ANIMATION_SPEED) ∧
    (∃ q, fishA.get_point ⟨1, 1⟩ =
      fishA.fish_type.get_point q (fishA.animation / ANIMATION_SPEED)) ∧
    (swimTrace testOps screenT fishM ()
      (NUM_FRAMES * ANIMATION_SPEED)).1.animation = 0 :=
  ⟨c7_animation_phase.1 Unit testOps fishA screenT () (by decide),
   c7_animation_phase.2.1 0 (by decide),
   c7_animation_phase.2.2.1 fishA ⟨1, 1⟩ (by decide),
   c7_animation_phase.2.2.2 Unit testOps screenT fishM () rfl
     (by decide)⟩

lemma extract_len (d : List Nat) (o n : Nat) (h : o + n ≤ d.length) :
    (extract d o n).length = n := by
  simp only [extract, List.length_take, List.length_drop]
  omega

/-- C9: `make_sprite i` reads the header at words `[4*i, 4*i+4)`, takes
`width = word0 >> 8` and `height = word0 & 0xff` (as `u16`), and when it
succeeds produces exactly `NUM_FRAMES` frames sharing that size, each
exactly `width*height` consecutive source words starting at the offset
in its header word; and on the (spec-modelled) compiled-in atlas, frame
regions of distinct sprite indices do not overlap in source offsets. -/
theorem c9_atlas_decode :
    (∀ (i : Nat) (data : List Nat) (s : Sprite),
      Sprite.make_sprite i data = some s →
      ∃ w0, data.get? (4 * i) = some w0 ∧
        s.size.width = (w0 % 2 ^ 16) >>> 8 ∧
        s.size.height = (w0 % 2 ^ 16) &&& 0xff ∧
        s.frames.length = NUM_FRAMES ∧
        (∀ fr ∈ s.frames,
          fr.length = s.size.width * s.size.height) ∧
        (∀ j, j < NUM_FRAMES → ∃ o0,
          data.get? (4 * i + j + 1) = some o0 ∧
          s.frames.get? j = some (extract data (o0 % 2 ^ 16)
            (s.size.width * s.size.height)))) ∧
    (∀ i < NUM_SPRITES, ∀ j < NUM_FRAMES,
      ∀ i' < NUM_SPRITES, ∀ j' < NUM_FRAMES, i ≠ i' →
      atlasFrameStart modelAtlas i j + atlasFrameLen modelAtlas i ≤
        atlasFrameStart modelAtlas i' j' ∨
      atlasFrameStart modelAtlas i' j' + atlasFrameLen modelAtlas i' ≤
        atlasFrameStart modelAtlas i j) := by
  constructor
  · intro i data s h
    simp only [Sprite.make_sprite] at h
    cases hw0 : data.get? (4 * i) with
    | none =>
      rw [hw0] at h
      exact Option.noConfusion h
    | some w0 =>
      simp only [hw0] at h
      split at h
      case h_2 => exact absurd h (by simp)
      case h_1 f0 f1 f2 heq0 heq1 heq2 =>
        cases hoff0 : data.get? (4 * i + 0 + 1) with
        | none =>
          rw [hoff0] at heq0
          exact Option.noConfusion heq0
        | some o0 =>
        cases hoff1 : data.get? (4 * i + 1 + 1) with
        | none =>
          rw [hoff1] at heq1
          exact Option.noConfusion heq1
        | some o1 =>
        cases hoff2 : data.get? (4 * i + 2 + 1) with
        | none =>
          rw [hoff2] at heq2
          exact Option.noConfusion heq2
        | some o2 =>
        simp only [hoff0] at heq0
        simp only [hoff1] at heq1
        simp only [hoff2] at heq2
        split at heq0
        case isFalse => exact absurd heq0 (by simp)
        case isTrue hc0 =>
        split at heq1
        case isFalse => exact absurd heq1 (by simp)
        case isTrue hc1 =>
        split at heq2
        case isFalse => exact absurd heq2 (by simp)
        case isTrue hc2 =>
        obtain rfl := Option.some.inj heq0
        obtain rfl := Option.some.inj heq1
        obtain rfl := Option.some.inj heq2
        obtain rfl := Option.some.inj h
        refine ⟨w0, rfl, rfl, rfl, rfl, ?_, ?_⟩
        · intro fr hfr
          simp only [List.mem_cons, List.not_mem_nil, or_false] at hfr
          rcases hfr with rfl | rfl | rfl
          · exact extract_len data _ _ hc0.2
          · exact extract_len data _ _ hc1.2
          · exact extract_len data _ _ hc2.2
        · intro j hj
          simp only [NUM_FRAMES] at hj
          interval_cases j
          · exact ⟨o0, hoff0, rfl⟩
          · exact ⟨o1, hoff1, rfl⟩
          · exact ⟨o2, hoff2, rfl⟩
  · set_option synthInstance.maxSize 1024 in
    set_option maxRecDepth 8000 in
    decide

/-- The sprite `make_sprite 0` decodes from the modelled atlas. -/
def sprite0 : Sprite :=
  { size := ⟨1, 1⟩, frames := [[0x07e0], [0x07e0], [0x07e0]] }

/-- Witness for C9: sprite 0 of the modelled atlas decodes as described,
and frames of sprites 0 and 1 do not overlap. -/
theorem c9_witness :
    (∃ w0, modelAtlas.get? (4 * 0) = some w0 ∧
      sprite0.size.width = (w0 % 2 ^ 16) >>> 8 ∧
      sprite0.size.height = (w0 % 2 ^ 16) &&& 0xff ∧
      sprite0.frames.length = NUM_FRAMES ∧
      (∀ fr ∈ sprite0.frames,
        fr.length = sprite0.size.width * sprite0.size.height) ∧
      (∀ j, j < NUM_FRAMES → ∃ o0,
        modelAtlas.get? (4 * 0 + j + 1) = some o0 ∧
        sprite0.frames.get? j = some (extract modelAtlas (o0 % 2 ^ 16)
          (sprite0.size.width * sprite0.size.height)))) ∧
    (atlasFrameStart modelAtlas 0 0 + atlasFrameLen modelAtlas 0 ≤
      atlasFrameStart modelAtlas 1 0 ∨
     atlasFrameStart modelAtlas 1 0 + atlasFrameLen modelAtlas 1 ≤
      atlasFrameStart modelAtlas 0 0) :=
  ⟨c9_atlas_decode.1 0 modelAtlas sprite0 (by decide),
   c9_atlas_decode.2 0 (by decide) 0 (by decide) 1 (by decide) 0
     (by decide) (by decide)⟩

lemma tank_get_isSome {σ : Type} (t : FishTank σ)
    (hwf : ∀ f ∈ t.fish, f.wf) (p : Pt) : (t.get_point p).isSome := by
  rw [FishTank.get_point, tankGetGo_eq p t.fish .OutOfRange
    (fun f hf => wf_get_point_isSome f p (hwf f hf))]
  rfl

lemma afterPos_zero (s : Sz) (p : Pt) (hs : inScreen s p) :
    afterPos 0 0 p := by
  unfold afterPos
  unfold inScreen cvt at hs
  omega

lemma collect_spec {σ : Type} (t : FishTank σ)
    (hwf : ∀ f ∈ t.fish, f.wf) :
    ∀ x y : Nat, x < t.size.width →
    ∃ l, collect t x y = some l ∧
      ∀ (p : Pt) (c : Nat), ((p, c) ∈ l ↔
        (afterPos x y p ∧ inScreen t.size p ∧
         ∃ v, t.get_point p = some v ∧ renderColor v = some c)) := by
  intro x y
  refine collect.induct t
    (fun x y => x < t.size.width →
      ∃ l, collect t x y = some l ∧
        ∀ (p : Pt) (c : Nat), ((p, c) ∈ l ↔
          (afterPos x y p ∧ inScreen t.size p ∧
           ∃ v, t.get_point p = some v ∧ renderColor v = some c)))
    ?_ ?_ ?_ ?_ x y
  · intro x y hy hx
    refine ⟨[], ?_, ?_⟩
    · rw [collect]
      rw [dif_pos hy]
    · intro p c
      simp only [List.not_mem_nil, false_iff]
      rintro ⟨ha, hs, -⟩
      unfold afterPos at ha
      unfold inScreen cvt at hs
      omega
  · intro x y hy pv hpv hx
    have hpv' : t.get_point ⟨(x : Int), (y : Int)⟩ = none := hpv
    have hns := tank_get_isSome t hwf ⟨(x : Int), (y : Int)⟩
    rw [hpv'] at hns
    exact absurd hns (by simp)
  · intro x y hy pv nx v hpv hrc ih hx
    have hpv' : t.get_point ⟨(x : Int), (y : Int)⟩ = some v := hpv
    have hnx : nx = if h : t.size.width ≤ x + 1 then (0, y + 1)
        else (x + 1, y) := rfl
    by_cases hWx : t.size.width ≤ x + 1
    · rw [dif_pos hWx] at hnx
      rw [hnx] at ih
      have ihW : 0 < t.size.width →
          ∃ l, collect t 0 (y + 1) = some l ∧
            ∀ (p : Pt) (c : Nat), ((p, c) ∈ l ↔
              (afterPos 0 (y + 1) p ∧ inScreen t.size p ∧
               ∃ w, t.get_point p = some w ∧
                 renderColor w = some c)) := ih
      obtain ⟨l, hl, hmem⟩ := ihW (Nat.lt_of_le_of_lt (Nat.zero_le x) hx)
      refine ⟨l, ?_, ?_⟩
      · rw [collect]
        rw [dif_neg hy]
        simp only [hpv', hrc, hWx, ite_true]
        exact hl
      · intro p c
        rw [hmem p c]
        obtain ⟨px, py⟩ := p
        constructor
        · rintro ⟨ha, hs, hv⟩
          refine ⟨?_, hs, hv⟩
          unfold afterPos at ha ⊢
          dsimp only at ha ⊢
          omega
        · rintro ⟨ha, hs, v', hv', hc'⟩
          by_cases hpe : px = (x : Int) ∧ py = (y : Int)
          · exfalso
            have hv2 : t.get_point ⟨(x : Int), (y : Int)⟩ = some v' := by
              rw [← hpe.1, ← hpe.2]
              exact hv'
            rw [hpv'] at hv2
            obtain rfl := Option.some.inj hv2
            rw [hrc] at hc'
            exact Option.noConfusion hc'
          · refine ⟨?_, hs, v', hv', hc'⟩
            have hne2 : px ≠ (x : Int) ∨ py ≠ (y : Int) := by tauto
            unfold afterPos at ha ⊢
            unfold inScreen cvt at hs
            dsimp only at ha hs ⊢
            omega
    · rw [dif_neg hWx] at hnx
      rw [hnx] at ih
      have ihW : x + 1 < t.size.width →
          ∃ l, collect t (x + 1) y = some l ∧
            ∀ (p : Pt) (c : Nat), ((p, c) ∈ l ↔
              (afterPos (x + 1) y p ∧ inScreen t.size p ∧
               ∃ w, t.get_point p = some w ∧
                 renderColor w = some c)) := ih
      obtain ⟨l, hl, hmem⟩ := ihW (Nat.lt_of_not_le hWx)
      refine ⟨l, ?_, ?_⟩
      · rw [collect]
        rw [dif_neg hy]
        simp only [hpv', hrc, hWx, ite_false]
        exact hl
      · intro p c
        rw [hmem p c]
        obtain ⟨px, py⟩ := p
        constructor
        · rintro ⟨ha, hs, hv⟩
          refine ⟨?_, hs, hv⟩
          unfold afterPos at ha ⊢
          dsimp only at ha ⊢
          omega
        · rintro ⟨ha, hs, v', hv', hc'⟩
          by_cases hpe : px = (x : Int) ∧ py = (y : Int)
          · exfalso
            have hv2 : t.get_point ⟨(x : Int), (y : Int)⟩ = some v' := by
              rw [← hpe.1, ← hpe.2]
              exact hv'
            rw [hpv'] at hv2
            obtain rfl := Option.some.inj hv2
            rw [hrc] at hc'
            exact Option.noConfusion hc'
          · refine ⟨?_, hs, v', hv', hc'⟩
            have hne2 : px ≠ (x : Int) ∨ py ≠ (y : Int) := by tauto
            unfold afterPos at ha ⊢
            unfold inScreen cvt at hs
            dsimp only at ha hs ⊢
            omega
  · intro x y hy pv nx v hpv c0 hrc ih hx
    have hpv' : t.get_point ⟨(x : Int), (y : Int)⟩ = some v := hpv
    have hnx : nx = if h : t.size.width ≤ x + 1 then (0, y + 1)
        else (x + 1, y) := rfl
    by_cases hWx : t.size.width ≤ x + 1
    · rw [dif_pos hWx] at hnx
      rw [hnx] at ih
      have ihW : 0 < t.size.width →
          ∃ l, collect t 0 (y + 1) = some l ∧
            ∀ (p : Pt) (c : Nat), ((p, c) ∈ l ↔
              (afterPos 0 (y + 1) p ∧ inScreen t.size p ∧
               ∃ w, t.get_point p = some w ∧
                 renderColor w = some c)) := ih
      obtain ⟨l, hl, hmem⟩ := ihW (Nat.lt_of_le_of_lt (Nat.zero_le x) hx)
      refine ⟨(⟨(x : Int), (y : Int)⟩, c0) :: l, ?_, ?_⟩
      · rw [collect]
        rw [dif_neg hy]
        simp only [hpv', hrc, hWx, ite_true, hl, Option.map_some']
      · intro p c
        rw [List.mem_cons, hmem p c]
        obtain ⟨px, py⟩ := p
        simp only [Prod.mk.injEq, Pt.mk.injEq]
        constructor
        · rintro (⟨⟨rfl, rfl⟩, rfl⟩ | ⟨ha, hs, hv⟩)
          · refine ⟨?_, ?_, v, hpv', hrc⟩
            · unfold afterPos
              dsimp only
              omega
            · unfold inScreen cvt
              dsimp only
              omega
          · refine ⟨?_, hs, hv⟩
            unfold afterPos at ha ⊢
            dsimp only at ha ⊢
            omega
        · rintro ⟨ha, hs, v', hv', hc'⟩
          by_cases hpe : px = (x : Int) ∧ py = (y : Int)
          · left
            have hv2 : t.get_point ⟨(x : Int), (y : Int)⟩ = some v' := by
              rw [← hpe.1, ← hpe.2]
              exact hv'
            rw [hpv'] at hv2
            obtain rfl := Option.some.inj hv2
            rw [hrc] at hc'
            exact ⟨⟨hpe.1, hpe.2⟩, (Option.some.inj hc').symm⟩
          · right
            refine ⟨?_, hs, v', hv', hc'⟩
            have hne2 : px ≠ (x : Int) ∨ py ≠ (y : Int) := by tauto
            unfold afterPos at ha ⊢
            unfold inScreen cvt at hs
            dsimp only at ha hs ⊢
            omega
    · rw [dif_neg hWx] at hnx
      rw [hnx] at ih
      have ihW : x + 1 < t.size.width →
          ∃ l, collect t (x + 1) y = some l ∧
            ∀ (p : Pt) (c : Nat), ((p, c) ∈ l ↔
              (afterPos (x + 1) y p ∧ inScreen t.size p ∧
               ∃ w, t.get_point p = some w ∧
                 renderColor w = some c)) := ih
      obtain ⟨l, hl, hmem⟩ := ihW (Nat.lt_of_not_le hWx)
      refine ⟨(⟨(x : Int), (y : Int)⟩, c0) :: l, ?_, ?_⟩
      · rw [collect]
        rw [dif_neg hy]
        simp only [hpv', hrc, hWx, ite_false, hl, Option.map_some']
      · intro p c
        rw [List.mem_cons, hmem p c]
        obtain ⟨px, py⟩ := p
        simp only [Prod.mk.injEq, Pt.mk.injEq]
        constructor
        · rintro (⟨⟨rfl, rfl⟩, rfl⟩ | ⟨ha, hs, hv⟩)
          · refine ⟨?_, ?_, v, hpv', hrc⟩
            · unfold afterPos
              dsimp only
              omega
            · unfold inScreen cvt
              dsimp only
              omega
          · refine ⟨?_, hs, hv⟩
            unfold afterPos at ha ⊢
            dsimp only at ha ⊢
            omega
        · rintro ⟨ha, hs, v', hv', hc'⟩
          by_cases hpe : px = (x : Int) ∧ py = (y : Int)
          · left
            have hv2 : t.get_point ⟨(x : Int), (y : Int)⟩ = some v' := by
              rw [← hpe.1, ← hpe.2]
              exact hv'
            rw [hpv'] at hv2
            obtain rfl := Option.some.inj hv2
            rw [hrc] at hc'
            exact ⟨⟨hpe.1, hpe.2⟩, (Option.some.inj hc').symm⟩
          · right
            refine ⟨?_, hs, v', hv', hc'⟩
            have hne2 : px ≠ (x : Int) ∨ py ≠ (y : Int) := by tauto
            unfold afterPos at ha ⊢
            unfold inScreen cvt at hs
            dsimp only at ha hs ⊢
            omega

/-- C1: one full `PixelStream` pass over a well-formed tank emits
exactly the on-screen coordinates whose tank sample is not `OutOfRange`
— equivalently, exactly the screen points lying in at least one fish's
bounding box — with `Transparent` rendered as the background color and
`Opaque c` as `c`; coordinates outside every bounding box (sample
`OutOfRange`) are never emitted. -/
theorem c1_pixelstream_coverage {σ : Type} (t : FishTank σ)
    (hwf : ∀ f ∈ t.fish, f.wf) (hW : 0 < t.size.width)
    (hW31 : t.size.width < 2 ^ 31) (hH31 : t.size.height < 2 ^ 31) :
    ∃ l, TankIterator.emitted t = some l ∧
      (∀ (p : Pt) (c : Nat), ((p, c) ∈ l ↔
        (inScreen t.size p ∧
         ∃ v, t.get_point p = some v ∧ renderColor v = some c))) ∧
      (∀ p : Pt, (∃ c, (p, c) ∈ l) ↔
        (inScreen t.size p ∧ ∃ f ∈ t.fish, f.inBox p = true)) := by
  obtain ⟨l, hl, hmem⟩ := collect_spec t hwf 0 0 hW
  have hsome : ∀ p : Pt, ∀ f ∈ t.fish, (f.get_point p).isSome :=
    fun p f hf => wf_get_point_isSome f p (hwf f hf)
  refine ⟨l, hl, ?_, ?_⟩
  · intro p c
    rw [hmem p c]
    constructor
    · rintro ⟨-, hs, hv⟩
      exact ⟨hs, hv⟩
    · rintro ⟨hs, hv⟩
      exact ⟨afterPos_zero t.size p hs, hs, hv⟩
  · intro p
    have he := tank_get_point_eq t p (hsome p)
    constructor
    · rintro ⟨c, hpc⟩
      obtain ⟨-, hs, v, hv, hc⟩ := (hmem p c).mp hpc
      refine ⟨hs, ?_⟩
      rw [he] at hv
      obtain rfl := Option.some.inj hv
      by_contra hno
      push_neg at hno
      have hoor : spec_sample t.fish p = .OutOfRange := by
        rw [spec_sample_oor_iff]
        intro f hf
        cases hx : f.inBox p with
        | false => rfl
        | true => exact absurd hx (hno f hf)
      rw [hoor] at hc
      exact Option.noConfusion hc
    · rintro ⟨hs, f, hf, hbox⟩
      have hne : spec_sample t.fish p ≠ .OutOfRange := by
        intro hoor
        rw [spec_sample_oor_iff] at hoor
        rw [hoor f hf] at hbox
        exact Bool.noConfusion hbox
      obtain ⟨c, hc⟩ : ∃ c,
          renderColor (spec_sample t.fish p) = some c := by
        cases hss : spec_sample t.fish p with
        | OutOfRange => exact absurd hss hne
        | Transparent => exact ⟨BACKGROUND, rfl⟩
        | Opaque c0 => exact ⟨c0, rfl⟩
      exact ⟨c, (hmem p c).mpr
        ⟨afterPos_zero t.size p hs, hs, spec_sample t.fish p, he, hc⟩⟩

/-- Witness for C1 at the concrete tank `tankT`. -/
theorem c1_witness :
    ∃ l, TankIterator.emitted tankT = some l ∧
      (∀ (p : Pt) (c : Nat), ((p, c) ∈ l ↔
        (inScreen tankT.size p ∧
         ∃ v, tankT.get_point p = some v ∧ renderColor v = some c))) ∧
      (∀ p : Pt, (∃ c, (p, c) ∈ l) ↔
        (inScreen tankT.size p ∧ ∃ f ∈ tankT.fish, f.inBox p = true)) :=
  c1_pixelstream_coverage tankT (by decide) (by decide) (by decide)
    (by decide)

/-- C2: on a well-formed tank, `FishTank.sample` returns `Opaque c` with
`c` the sprite color of the lowest-index fish whose bounding box contains
the point and whose sprite sample there is `Opaque` (the spec-side
`spec_sample`, whose `findSome?` picks the first such fish in index
order); `Transparent` when no fish is opaque there but some bounding box
contains the point; and `OutOfRange` exactly when no fish's bounding box
contains the point. -/
theorem c2_tank_sample_precedence {σ : Type} (t : FishTank σ) (pt : Pt)
    (hwf : ∀ f ∈ t.fish, f.wf) :
    t.get_point pt = some (spec_sample t.fish pt) ∧
    (t.get_point pt = some .OutOfRange ↔
      ∀ f ∈ t.fish, f.inBox pt = false) := by
  have h : ∀ f ∈ t.fish, (f.get_point pt).isSome := fun f hf =>
    wf_get_point_isSome f pt (hwf f hf)
  have he := tank_get_point_eq t pt h
  refine ⟨he, ?_⟩
  rw [he]
  simp only [Option.some.injEq]
  exact spec_sample_oor_iff t.fish pt

/-- Witness for C2 at the concrete two-fish tank `tankT` (both fish
opaque at `(1,1)` with different colors; the lowest-index fish wins). -/
theorem c2_witness :
    tankT.get_point ⟨1, 1⟩ = some (spec_sample tankT.fish ⟨1, 1⟩) ∧
    (tankT.get_point ⟨1, 1⟩ = some .OutOfRange ↔
      ∀ f ∈ tankT.fish, f.inBox ⟨1, 1⟩ = false) :=
  c2_tank_sample_precedence tankT ⟨1, 1⟩ (by decide)

/-- C3: construction and evolution are deterministic.  `runA` and `runB`
are two verbatim copies of the run `FishTank::new` followed by `k` calls
to `swim()`; for every RNG model, atlas, screen size, seed and tick
count the two runs agree, in particular in every fish slot.  The RNG
state is threaded sequentially through the fish in index order `0..N-1`
(`tankNewGo`, `tankSwimGo`), so the result is a function of the seed
alone. -/
theorem c3_determinism {σ : Type} (ops : RngOps σ)
    (sprite_data : List Nat) (screen : Sz) (seed k : Nat) :
    runA ops sprite_data screen seed k =
      runB ops sprite_data screen seed k ∧
    ∀ i : Nat,
      (runA ops sprite_data screen seed k).map (fun t => t.fish.get? i) =
      (runB ops sprite_data screen seed k).map
        (fun t => t.fish.get? i) :=
  ⟨rfl, fun _ => rfl⟩

/-- C10: every fish state reachable through `new`, `randomize`,
`randomize_x` and `swim` (with an RNG satisfying the `gen_range`
contract) keeps its animation phase strictly below
`NUM_FRAMES * ANIMATION_SPEED`; hence the rendered frame index
`animation / ANIMATION_SPEED` is strictly below `NUM_FRAMES`, and the
frame-array access in `Sprite::get_point` is in bounds. -/
theorem c10_phase_invariant {σ : Type} (ops : RngOps σ) (screen : Sz)
    (f : Fish) (hspec : GenRangeSpec ops)
    (hreach : FishReach ops screen f) :
    f.animation < NUM_FRAMES * ANIMATION_SPEED ∧
    f.animation / ANIMATION_SPEED < NUM_FRAMES ∧
    (f.fish_type.frames.length = NUM_FRAMES →
      (f.fish_type.frames.get? (f.animation / ANIMATION_SPEED)).isSome) := by
  have hanim : f.animation < NUM_FRAMES * ANIMATION_SPEED := by
    induction hreach with
    | base sp =>
      exact (by decide : (0 : Nat) < NUM_FRAMES * ANIMATION_SPEED)
    | rand g s hr ih =>
      rw [randomize_animation]
      exact (hspec 0 (NUM_FRAMES * ANIMATION_SPEED) _ (by decide)).2
    | randx g s hr ih =>
      rw [randomize_x_animation]
      exact ih
    | swim g s hr ih =>
      exact swim_animation_lt ops g screen s hspec
  have hdiv : f.animation / ANIMATION_SPEED < NUM_FRAMES := by
    simp only [NUM_FRAMES, ANIMATION_SPEED] at hanim ⊢
    omega
  refine ⟨hanim, hdiv, fun hlen => ?_⟩
  cases hq : f.fish_type.frames.get? (f.animation / ANIMATION_SPEED) with
  | none =>
    rw [List.get?_eq_none] at hq
    rw [hlen] at hq
    omega
  | some fr => rfl

/-- Witness for C10 at the freshly constructed fish `Fish.new spriteA`
under the concrete RNG `testOps`. -/
theorem c10_witness :
    (Fish.new spriteA).animation < NUM_FRAMES * ANIMATION_SPEED ∧
    (Fish.new spriteA).animation / ANIMATION_SPEED < NUM_FRAMES ∧
    ((Fish.new spriteA).fish_type.frames.length = NUM_FRAMES →
      ((Fish.new spriteA).fish_type.frames.get?
        ((Fish.new spriteA).animation / ANIMATION_SPEED)).isSome) :=
  c10_phase_invariant testOps screenT (Fish.new spriteA)
    testOps_genRange_spec (FishReach.base spriteA)

/-- C5 counterexample: the claim "for every fish with
`upper_left.x + bounding width = 0`, `on_screen` returns true" fails as
stated: `fishOffY` has its box's right edge exactly at the screen's left
edge but lies 1000 pixels below the 160×80 screen, and `on_screen` is
false. -/
theorem c5_counterexample :
    fishOffY.upper_left.x + cvt fishOffY.size.width = 0 ∧
    Fish.on_screen fishOffY screenT = false := by
  constructor
  · decide
  · decide

/-- C5 (amended): `on_screen` is an inclusive axis-aligned bounding-box
overlap test against the screen rectangle; in particular a fish whose
vertical extent overlaps the screen inclusively and whose box merely
touches the screen's left edge (`upper_left.x + width = 0`) or right
edge (`upper_left.x = screen.width`) is on-screen, and likewise for the
analogous y cases when the horizontal extent overlaps. -/
theorem c5_on_screen_inclusive (f : Fish) (screen : Sz)
    (hw : f.size.width < 2 ^ 31) (hh : f.size.height < 2 ^ 31)
    (hW : screen.width < 2 ^ 31) (hH : screen.height < 2 ^ 31) :
    (f.on_screen screen = true ↔
      (f.upper_left.y ≤ cvt screen.height ∧
       0 ≤ f.upper_left.y + cvt f.size.height ∧
       f.upper_left.x ≤ cvt screen.width ∧
       0 ≤ f.upper_left.x + cvt f.size.width)) ∧
    (f.upper_left.x + cvt f.size.width = 0 →
      f.upper_left.y ≤ cvt screen.height →
      0 ≤ f.upper_left.y + cvt f.size.height →
      f.on_screen screen = true) ∧
    (f.upper_left.x = cvt screen.width →
      f.upper_left.y ≤ cvt screen.height →
      0 ≤ f.upper_left.y + cvt f.size.height →
      f.on_screen screen = true) ∧
    (f.upper_left.y + cvt f.size.height = 0 →
      f.upper_left.x ≤ cvt screen.width →
      0 ≤ f.upper_left.x + cvt f.size.width →
      f.on_screen screen = true) ∧
    (f.upper_left.y = cvt screen.height →
      f.upper_left.x ≤ cvt screen.width →
      0 ≤ f.upper_left.x + cvt f.size.width →
      f.on_screen screen = true) := by
  simp only [Fish.on_screen, Bool.and_eq_true, decide_eq_true_eq, cvt]
  omega

/-- Witness for C5's amended theorem at a fish touching the left edge
with inclusive vertical overlap. -/
theorem c5_witness :
    ((fishOffX.on_screen screenT = true ↔
      (fishOffX.upper_left.y ≤ cvt screenT.height ∧
       0 ≤ fishOffX.upper_left.y + cvt fishOffX.size.height ∧
       fishOffX.upper_left.x ≤ cvt screenT.width ∧
       0 ≤ fishOffX.upper_left.x + cvt fishOffX.size.width)) ∧
    (fishOffX.upper_left.x + cvt fishOffX.size.width = 0 →
      fishOffX.upper_left.y ≤ cvt screenT.height →
      0 ≤ fishOffX.upper_left.y + cvt fishOffX.size.height →
      fishOffX.on_screen screenT = true) ∧
    (fishOffX.upper_left.x = cvt screenT.width →
      fishOffX.upper_left.y ≤ cvt screenT.height →
      0 ≤ fishOffX.upper_left.y + cvt fishOffX.size.height →
      fishOffX.on_screen screenT = true) ∧
    (fishOffX.upper_left.y + cvt fishOffX.size.height = 0 →
      fishOffX.upper_left.x ≤ cvt screenT.width →
      0 ≤ fishOffX.upper_left.x + cvt fishOffX.size.width →
      fishOffX.on_screen screenT = true) ∧
    (fishOffX.upper_left.y = cvt screenT.height →
      fishOffX.upper_left.x ≤ cvt screenT.width →
      0 ≤ fishOffX.upper_left.x + cvt fishOffX.size.width →
      fishOffX.on_screen screenT = true)) :=
  c5_on_screen_inclusive fishOffX screenT (by decide) (by decide)
    (by decide) (by decide)

/-- C6: `Sprite::get_point` subtracts the margin `FUDGE_FACTOR` from
both coordinates; offset coordinates outside `[0,width)×[0,height)`
yield `Transparent`; otherwise the frame word at row-major offset
`x + y*width` is read, `Transparent` exactly for the sentinel
`TRANSPARENT = 0xDEAD` and `Opaque` of that word otherwise. -/
theorem c6_sprite_sample (sp : Sprite) (pt : Pt) (anim : Nat)
    (hw : sp.size.width < 2 ^ 31) (hh : sp.size.height < 2 ^ 31) :
    ((pt.x - FUDGE_FACTOR < 0 ∨ pt.y - FUDGE_FACTOR < 0 ∨
      pt.x - FUDGE_FACTOR ≥ cvt sp.size.width ∨
      pt.y - FUDGE_FACTOR ≥ cvt sp.size.height) →
      sp.get_point pt anim = some .Transparent) ∧
    (∀ fr c,
      ¬(pt.x - FUDGE_FACTOR < 0 ∨ pt.y - FUDGE_FACTOR < 0 ∨
        pt.x - FUDGE_FACTOR ≥ cvt sp.size.width ∨
        pt.y - FUDGE_FACTOR ≥ cvt sp.size.height) →
      sp.frames.get? anim = some fr →
      fr.get? ((pt.x - FUDGE_FACTOR).toNat +
        (pt.y - FUDGE_FACTOR).toNat * sp.size.width) = some c →
      sp.get_point pt anim =
        some (if c = TRANSPARENT then .Transparent else .Opaque c)) := by
  constructor
  · intro h
    simp only [Sprite.get_point]
    rw [if_pos h]
  · intro fr c hn hfr hc
    simp only [Sprite.get_point]
    rw [if_neg hn]
    simp only [hfr, hc]
    split <;> rfl

/-- Witness for C6 at the concrete sprite `spriteA`: a point outside the
offset bounds samples `Transparent`, and an in-bounds point reads the
frame word. -/
theorem c6_witness :
    spriteA.get_point ⟨0, 5⟩ 0 = some .Transparent ∧
    spriteA.get_point ⟨1, 1⟩ 0 =
      some (if 5 = TRANSPARENT then .Transparent else .Opaque 5) :=
  ⟨(c6_sprite_sample spriteA ⟨0, 5⟩ 0 (by decide) (by decide)).1
      (by decide),
   (c6_sprite_sample spriteA ⟨1, 1⟩ 0 (by decide) (by decide)).2 [5] 5
      (by decide) rfl rfl⟩

/-- C8: horizontal mirroring.  For a left-facing fish, the sample at
in-box offset `(dx, dy)` equals the sample of the identical right-facing
fish at in-box offset `(width - 1 - dx, dy)`: `Fish::get_point` passes
the sprite sampler the mirrored x `width - (dx + 1)`. -/
theorem c8_mirroring (f : Fish) (dx dy : Int)
    (hdir : f.direction = .Left)
    (hx0 : 0 ≤ dx) (hxw : dx < cvt f.size.width)
    (hy0 : 0 ≤ dy) (hyh : dy < cvt f.size.height)
    (hw : f.size.width < 2 ^ 31) :
    f.get_point ⟨f.upper_left.x + dx, f.upper_left.y + dy⟩ =
      Fish.get_point { f with direction := .Right }
        ⟨f.upper_left.x + (cvt f.size.width - 1 - dx),
         f.upper_left.y + dy⟩ := by
  have hb1 : f.inBox ⟨f.upper_left.x + dx, f.upper_left.y + dy⟩
      = true := by
    rw [inBox_iff]
    dsimp only
    refine ⟨by omega, by omega, by omega, by omega⟩
  have hb2 : Fish.inBox { f with direction := .Right }
      ⟨f.upper_left.x + (cvt f.size.width - 1 - dx),
       f.upper_left.y + dy⟩ = true := by
    rw [inBox_iff]
    dsimp only
    refine ⟨by omega, by omega, by omega, by omega⟩
  rw [get_point_of_inBox _ _ hb1, get_point_of_inBox _ _ hb2]
  dsimp only
  rw [if_pos hdir, if_neg (by decide : ¬ (Dir.Right = Dir.Left))]
  congr 1
  rw [Pt.mk.injEq]
  refine ⟨by omega, by omega⟩

/-- Witness for C8 at the concrete left-facing fish `fishL` and offset
`(0, 0)`. -/
theorem c8_witness :
    fishL.get_point ⟨fishL.upper_left.x + 0, fishL.upper_left.y + 0⟩ =
      Fish.get_point { fishL with direction := .Right }
        ⟨fishL.upper_left.x + (cvt fishL.size.width - 1 - 0),
         fishL.upper_left.y + 0⟩ :=
  c8_mirroring fishL 0 0 rfl (by decide) (by decide) (by decide)
    (by decide) (by decide)
